import Mathlib

/-!
Formal model of the OpenFGA authorization resolution engine and of the
process bootstrap (`cmd/openfga/openfga.go`).

The repository slice contains only the bootstrap wiring; the resolution
engine itself (model representation and validator, userset rewrite
evaluator, check resolver) is specified in `spec.md` but its code is not
part of the slice, so the engine definitions below are modelled from the
spec.  The bootstrap definitions at the end are translated from
`cmd/openfga/openfga.go`.
-/

namespace OpenFGA

/-- Modelled from the spec: a user is either a concrete subject
(`type:id`) or a userset reference (`type:id#relation`).  The Check
resolver code is absent from the slice (only the bootstrap is present). -/
inductive User where
  | object (objType objId : String)
  | userset (objType objId relation : String)
deriving DecidableEq

/-- Modelled from the spec: a relationship tuple
`(object type, object id, relation, user)`.  The tuple store code is
absent from the slice. -/
structure Tuple where
  objectType : String
  objectId : String
  relation : String
  user : User
deriving DecidableEq

mutual
/-- Modelled from the spec: the closed tagged-variant rewrite expression
tree (This / ComputedUserset / TupleToUserset / Union / Intersection /
Difference).  The rewrite evaluator code is absent from the slice. -/
inductive Rewrite where
  | this_
  | computedUserset (relation : String)
  | tupleToUserset (tuplesetRelation computedRelation : String)
  | union (children : RewriteList)
  | intersection (children : RewriteList)
  | difference (base subtract : Rewrite)

/-- The list of children of a `Union`/`Intersection` node. -/
inductive RewriteList where
  | nil
  | cons (head : Rewrite) (tail : RewriteList)
end

/-- View the children of a rewrite node as an ordinary list. -/
def RewriteList.toList : RewriteList → List Rewrite
  | .nil => []
  | .cons c cs => c :: cs.toList

/-- Modelled from the spec: a type definition is a type name plus a
mapping from relation name to rewrite expression. -/
structure TypeDefinition where
  name : String
  relations : List (String × Rewrite)

/-- Modelled from the spec: an authorization model is an immutable
mapping from type name to type definition. -/
structure AuthorizationModel where
  typeDefinitions : List TypeDefinition

/-- Modelled from the spec: look up the rewrite of a relation on a type
in a model. -/
def AuthorizationModel.getRewrite (m : AuthorizationModel) (objType rel : String) :
    Option Rewrite :=
  match m.typeDefinitions.find? (fun td => td.name == objType) with
  | none => none
  | some td => td.relations.lookup rel

/-- Modelled from the spec: the errors the Check resolver can produce.
`depthExceeded` is the DepthExceededError of the error taxonomy;
`relationNotFound` covers the NotFoundError cases the pure engine can
hit (an unknown type/relation). -/
inductive CheckError where
  | depthExceeded
  | relationNotFound (objType relation : String)
deriving DecidableEq

/-- A key on the active resolution path: `(object type, object id,
relation, user)`, the `(object#relation, user)` pair of the spec. -/
abbrev PathKey := String × String × String × User

/-- Modelled from the spec: combine the results of the fan-out of
`TupleToUserset` and of userset references at a `This` leaf: true as
soon as one branch is true, false when all branches are false, a
branch's error propagates otherwise. -/
def unionResults : List (Except CheckError Bool) → Except CheckError Bool
  | [] => .ok false
  | .ok true :: _ => .ok true
  | .ok false :: rest => unionResults rest
  | .error e :: _ => .error e

/-- Modelled from the spec: the direct tuples matching
`(object type, object id, relation)` in the (merged) tuple set. -/
def directTuples (tuples : List Tuple) (objType objId rel : String) : List Tuple :=
  tuples.filter (fun t => t.objectType == objType && t.objectId == objId && t.relation == rel)

mutual
/-- Modelled from the spec: the userset rewrite evaluator, parametrised
by the cross-relation recursion `check` (supplied by the Check resolver,
which accounts for the depth budget and the cycle guard).
  * `This`: true on a direct tuple whose user equals the target; a
    returned userset reference is recursively checked for the target's
    membership.
  * `ComputedUserset(R)`: delegate to relation R on the same object.
  * `TupleToUserset(TR, CR)`: for every tuple matching `(object, TR)`,
    evaluate CR on the related object named by the tuple's user.
  * `Union` / `Intersection` / `Difference`: set algebra over children;
    the subtrahend of a difference is only evaluated if the base is
    true. -/
def evalRewrite (tuples : List Tuple)
    (check : String → String → String → User → Except CheckError Bool)
    (objType objId rel : String) (user : User) : Rewrite → Except CheckError Bool
  | .this_ =>
    let direct := directTuples tuples objType objId rel
    if direct.any (fun t => t.user == user) then .ok true
    else
      unionResults (direct.filterMap (fun t =>
        match t.user with
        | .userset uT uI uR => some (check uT uI uR user)
        | .object _ _ => none))
  | .computedUserset r => check objType objId r user
  | .tupleToUserset tr cr =>
    unionResults ((directTuples tuples objType objId tr).map (fun t =>
      match t.user with
      | .userset uT uI _ => check uT uI cr user
      | .object uT uI => check uT uI cr user))
  | .union cs => evalUnion tuples check objType objId rel user cs
  | .intersection cs => evalIntersection tuples check objType objId rel user cs
  | .difference a b =>
    match evalRewrite tuples check objType objId rel user a with
    | .ok true =>
      match evalRewrite tuples check objType objId rel user b with
      | .ok sub => .ok (!sub)
      | .error e => .error e
    | .ok false => .ok false
    | .error e => .error e

/-- Modelled from the spec: the children of a `Union` evaluated in
order; the decision is true iff at least one child evaluates true, and
the evaluation short-circuits as soon as one true is observed. -/
def evalUnion (tuples : List Tuple)
    (check : String → String → String → User → Except CheckError Bool)
    (objType objId rel : String) (user : User) : RewriteList → Except CheckError Bool
  | .nil => .ok false
  | .cons c cs =>
    match evalRewrite tuples check objType objId rel user c with
    | .ok true => .ok true
    | .ok false => evalUnion tuples check objType objId rel user cs
    | .error e => .error e

/-- Modelled from the spec: the children of an `Intersection` evaluated
in order; the decision is true iff all children evaluate true, and the
evaluation short-circuits as soon as one false is observed. -/
def evalIntersection (tuples : List Tuple)
    (check : String → String → String → User → Except CheckError Bool)
    (objType objId rel : String) (user : User) : RewriteList → Except CheckError Bool
  | .nil => .ok true
  | .cons c cs =>
    match evalRewrite tuples check objType objId rel user c with
    | .ok false => .ok false
    | .ok true => evalIntersection tuples check objType objId rel user cs
    | .error e => .error e
end

/-- Modelled from the spec: the Check resolver's recursive relation
resolution.  A `(object#relation, user)` pair already on the active call
path is a non-match for that branch (cycle guard); every cross-relation
hop consumes one unit of the depth budget, and a hop with no budget left
is a depth-exceeded failure, not a false. -/
def checkRelation (m : AuthorizationModel) (tuples : List Tuple) (depth : Nat)
    (visited : List PathKey) (objType objId rel : String) (user : User) :
    Except CheckError Bool :=
  if (objType, objId, rel, user) ∈ visited then .ok false
  else
    match depth with
    | 0 => .error .depthExceeded
    | d + 1 =>
      match m.getRewrite objType rel with
      | none => .error (.relationNotFound objType rel)
      | some rw =>
        evalRewrite tuples
          (fun oT oI r u =>
            checkRelation m tuples d ((objType, objId, rel, user) :: visited) oT oI r u)
          objType objId rel user rw

/-- Modelled from the spec: the Check entry point over a merged tuple
set.  It locates the relation's rewrite for the object's type and
evaluates it; the depth budget bounds the cross-relation hops below the
top-level relation, and the top-level pair seeds the cycle guard. -/
def check (m : AuthorizationModel) (tuples : List Tuple) (depth : Nat)
    (objType objId rel : String) (user : User) : Except CheckError Bool :=
  match m.getRewrite objType rel with
  | none => .error (.relationNotFound objType rel)
  | some rw =>
    evalRewrite tuples
      (fun oT oI r u =>
        checkRelation m tuples depth [(objType, objId, rel, user)] oT oI r u)
      objType objId rel user rw

/-- Structural induction on the children list of a rewrite node. -/
@[induction_eliminator] theorem RewriteList.inductionOn {motive : RewriteList → Prop}
    (nil : motive .nil) (cons : ∀ c cs, motive cs → motive (.cons c cs)) :
    ∀ cs, motive cs
  | .nil => nil
  | .cons c cs => cons c cs (RewriteList.inductionOn nil cons cs)

/-- Unfolding equation: evaluating a `ComputedUserset` delegates to the
cross-relation recursion on the same object. -/
theorem evalRewrite_computedUserset (tuples : List Tuple)
    (chk : String → String → String → User → Except CheckError Bool)
    (objType objId rel : String) (user : User) (r : String) :
    evalRewrite tuples chk objType objId rel user (.computedUserset r) =
      chk objType objId r user := rfl

/-- Unfolding equation: evaluating a `Union` node evaluates its
children. -/
theorem evalRewrite_union (tuples : List Tuple)
    (chk : String → String → String → User → Except CheckError Bool)
    (objType objId rel : String) (user : User) (cs : RewriteList) :
    evalRewrite tuples chk objType objId rel user (.union cs) =
      evalUnion tuples chk objType objId rel user cs := rfl

/-- Unfolding equation: evaluating an `Intersection` node evaluates its
children. -/
theorem evalRewrite_intersection (tuples : List Tuple)
    (chk : String → String → String → User → Except CheckError Bool)
    (objType objId rel : String) (user : User) (cs : RewriteList) :
    evalRewrite tuples chk objType objId rel user (.intersection cs) =
      evalIntersection tuples chk objType objId rel user cs := rfl

/-- Unfolding equation: evaluating a `Difference` node evaluates the
base first and the subtrahend only if the base is true. -/
theorem evalRewrite_difference (tuples : List Tuple)
    (chk : String → String → String → User → Except CheckError Bool)
    (objType objId rel : String) (user : User) (a b : Rewrite) :
    evalRewrite tuples chk objType objId rel user (.difference a b) =
      match evalRewrite tuples chk objType objId rel user a with
      | .ok true =>
        match evalRewrite tuples chk objType objId rel user b with
        | .ok sub => .ok (!sub)
        | .error e => .error e
      | .ok false => .ok false
      | .error e => .error e := rfl

/-- Unfolding equation: a union child that is true decides the union; a
false child defers to the remaining children; an error propagates. -/
theorem evalUnion_cons (tuples : List Tuple)
    (chk : String → String → String → User → Except CheckError Bool)
    (objType objId rel : String) (user : User) (c : Rewrite) (cs : RewriteList) :
    evalUnion tuples chk objType objId rel user (.cons c cs) =
      match evalRewrite tuples chk objType objId rel user c with
      | .ok true => .ok true
      | .ok false => evalUnion tuples chk objType objId rel user cs
      | .error e => .error e := rfl

/-- Unfolding equation: an intersection child that is false decides the
intersection; a true child defers to the remaining children; an error
propagates. -/
theorem evalIntersection_cons (tuples : List Tuple)
    (chk : String → String → String → User → Except CheckError Bool)
    (objType objId rel : String) (user : User) (c : Rewrite) (cs : RewriteList) :
    evalIntersection tuples chk objType objId rel user (.cons c cs) =
      match evalRewrite tuples chk objType objId rel user c with
      | .ok false => .ok false
      | .ok true => evalIntersection tuples chk objType objId rel user cs
      | .error e => .error e := rfl

/-- A pair already on the active call path resolves to a non-match. -/
theorem checkRelation_visited (m : AuthorizationModel) (tuples : List Tuple)
    (depth : Nat) (visited : List PathKey) (objType objId rel : String) (user : User)
    (h : (objType, objId, rel, user) ∈ visited) :
    checkRelation m tuples depth visited objType objId rel user = .ok false := by
  rw [checkRelation.eq_def, if_pos h]

/-- A fresh pair with an exhausted depth budget is a depth-exceeded
failure. -/
theorem checkRelation_zero (m : AuthorizationModel) (tuples : List Tuple)
    (visited : List PathKey) (objType objId rel : String) (user : User)
    (h : (objType, objId, rel, user) ∉ visited) :
    checkRelation m tuples 0 visited objType objId rel user = .error .depthExceeded := by
  rw [checkRelation.eq_def, if_neg h]

/-- A fresh pair with remaining budget resolves the relation's rewrite,
with the pair pushed onto the active path and the budget decremented. -/
theorem checkRelation_succ (m : AuthorizationModel) (tuples : List Tuple) (d : Nat)
    (visited : List PathKey) (objType objId rel : String) (user : User)
    (h : (objType, objId, rel, user) ∉ visited) :
    checkRelation m tuples (d + 1) visited objType objId rel user =
      match m.getRewrite objType rel with
      | none => .error (.relationNotFound objType rel)
      | some rw =>
        evalRewrite tuples
          (fun oT oI r u =>
            checkRelation m tuples d ((objType, objId, rel, user) :: visited) oT oI r u)
          objType objId rel user rw := by
  rw [checkRelation.eq_def, if_neg h]

/-- The model of the spec's concrete scenario: type `document` with
`viewer = union(this, computed_userset(editor))` and `editor`
direct-only. -/
def docModel : AuthorizationModel :=
  ⟨[⟨"document",
     [("viewer", .union (.cons .this_ (.cons (.computedUserset "editor") .nil))),
      ("editor", .this_)]⟩]⟩

/-- The tuple `document:1#editor@user:alice` of the concrete scenario. -/
def tupAlice : Tuple := ⟨"document", "1", "editor", .object "user" "alice"⟩

/-- The cyclic model of the spec's cycle-safety scenario: relation `a`
is `ComputedUserset(b)` and `b` is `ComputedUserset(a)` on type `doc`. -/
def cycModel : AuthorizationModel :=
  ⟨[⟨"doc", [("a", .computedUserset "b"), ("b", .computedUserset "a")]⟩]⟩

/-- C1: for every model, tuple set and depth limit ≥ 1, Check is total:
it returns a boolean decision or one of the defined errors
(depth-exceeded or relation-not-found), never failing to terminate —
the evaluator is a total function even on cyclic models. -/
theorem check_total (m : AuthorizationModel) (tuples : List Tuple) (depth : Nat)
    (objType objId rel : String) (user : User) (_hdepth : 1 ≤ depth) :
    (∃ b : Bool, check m tuples depth objType objId rel user = .ok b) ∨
    check m tuples depth objType objId rel user = .error .depthExceeded ∨
    (∃ t r, check m tuples depth objType objId rel user = .error (.relationNotFound t r)) := by
  cases h : check m tuples depth objType objId rel user with
  | ok b => exact .inl ⟨b, rfl⟩
  | error e =>
    cases e with
    | depthExceeded => exact .inr (.inl rfl)
    | relationNotFound t r => exact .inr (.inr ⟨t, r, rfl⟩)

/-- Witness for C1 at the concrete scenario model. -/
theorem check_total_witness :
    1 ≤ 25 ∧
    ((∃ b : Bool, check docModel [tupAlice] 25 "document" "1" "viewer"
        (.object "user" "alice") = .ok b) ∨
      check docModel [tupAlice] 25 "document" "1" "viewer"
        (.object "user" "alice") = .error .depthExceeded ∨
      (∃ t r, check docModel [tupAlice] 25 "document" "1" "viewer"
        (.object "user" "alice") = .error (.relationNotFound t r))) :=
  ⟨by decide,
   check_total docModel [tupAlice] 25 "document" "1" "viewer" (.object "user" "alice")
     (by decide)⟩

/-- C2: a pair already being resolved on the active call path is a
non-match for that branch, never an error; in particular on the cyclic
model (`a = ComputedUserset(b)`, `b = ComputedUserset(a)`, no tuples)
Check returns false, not an error, for every object id and user. -/
theorem cycle_guard_nonmatch :
    (∀ (m : AuthorizationModel) (tuples : List Tuple) (depth : Nat)
        (visited : List PathKey) (objType objId rel : String) (user : User),
      (objType, objId, rel, user) ∈ visited →
      checkRelation m tuples depth visited objType objId rel user = .ok false) ∧
    (∀ (objId : String) (user : User) (depth : Nat), 1 ≤ depth →
      check cycModel [] depth "doc" objId "a" user = .ok false ∧
      check cycModel [] depth "doc" objId "b" user = .ok false) := by
  constructor
  · intro m tuples depth visited objType objId rel user h
    exact checkRelation_visited m tuples depth visited objType objId rel user h
  · intro objId user depth hdepth
    obtain ⟨d, rfl⟩ : ∃ d, depth = d + 1 := ⟨depth - 1, by omega⟩
    constructor
    · have step1 : check cycModel [] (d + 1) "doc" objId "a" user =
          checkRelation cycModel [] (d + 1) [("doc", objId, "a", user)]
            "doc" objId "b" user := rfl
      rw [step1, checkRelation_succ _ _ _ _ _ _ _ _ (by simp)]
      have step2 : (cycModel.getRewrite "doc" "b") = some (.computedUserset "a") := rfl
      rw [step2]
      exact checkRelation_visited _ _ _ _ _ _ _ _ (by simp)
    · have step1 : check cycModel [] (d + 1) "doc" objId "b" user =
          checkRelation cycModel [] (d + 1) [("doc", objId, "b", user)]
            "doc" objId "a" user := rfl
      rw [step1, checkRelation_succ _ _ _ _ _ _ _ _ (by simp)]
      have step2 : (cycModel.getRewrite "doc" "a") = some (.computedUserset "b") := rfl
      rw [step2]
      exact checkRelation_visited _ _ _ _ _ _ _ _ (by simp)

/-- Witness for C2 at concrete inputs. -/
theorem cycle_guard_nonmatch_witness :
    ("doc", "1", "a", User.object "user" "alice") ∈
      [(("doc", "1", "a", User.object "user" "alice") : PathKey)] ∧
    checkRelation cycModel [] 5 [("doc", "1", "a", .object "user" "alice")]
      "doc" "1" "a" (.object "user" "alice") = .ok false ∧
    1 ≤ 7 ∧
    check cycModel [] 7 "doc" "1" "a" (.object "user" "alice") = .ok false := by
  refine ⟨by decide, ?_, by decide, ?_⟩
  · exact cycle_guard_nonmatch.1 cycModel [] 5 _ "doc" "1" "a" (.object "user" "alice")
      (by decide)
  · exact (cycle_guard_nonmatch.2 "1" (.object "user" "alice") 7 (by decide)).1

/-- C4: the evaluation of `Difference(A, B)` agrees with
`Check(A) AND NOT Check(B)` whenever both sides return booleans. -/
theorem difference_correct (tuples : List Tuple)
    (chk : String → String → String → User → Except CheckError Bool)
    (objType objId rel : String) (user : User) (a b : Rewrite) (ba bb : Bool)
    (ha : evalRewrite tuples chk objType objId rel user a = .ok ba)
    (hb : evalRewrite tuples chk objType objId rel user b = .ok bb) :
    evalRewrite tuples chk objType objId rel user (.difference a b) = .ok (ba && !bb) := by
  rw [evalRewrite_difference, ha]
  cases ba with
  | true => rw [hb]; simp
  | false => simp

/-- Witness for C4 at a concrete rewrite. -/
theorem difference_correct_witness :
    evalRewrite [tupAlice] (fun _ _ _ _ => .ok false) "document" "1" "editor"
      (.object "user" "alice") .this_ = .ok true ∧
    evalRewrite [tupAlice] (fun _ _ _ _ => .ok false) "document" "1" "viewer"
      (.object "user" "alice") .this_ = .ok false ∧
    evalRewrite [tupAlice] (fun _ _ _ _ => .ok false) "document" "1" "editor"
      (.object "user" "alice")
      (.difference .this_ (.computedUserset "banned")) = .ok (true && !false) :=
  ⟨rfl, rfl,
   difference_correct [tupAlice] (fun _ _ _ _ => .ok false) "document" "1" "editor"
     (.object "user" "alice") .this_ (.computedUserset "banned") true false rfl rfl⟩

/-- The type of the cross-relation recursion callback threaded through
the rewrite evaluator. -/
abbrev CheckFun := String → String → String → User → Except CheckError Bool

/-- Unfolding equation: a union with no children is false. -/
theorem evalUnion_nil (tuples : List Tuple) (chk : CheckFun)
    (objType objId rel : String) (user : User) :
    evalUnion tuples chk objType objId rel user .nil = .ok false := rfl

/-- Unfolding equation: an intersection with no children is true. -/
theorem evalIntersection_nil (tuples : List Tuple) (chk : CheckFun)
    (objType objId rel : String) (user : User) :
    evalIntersection tuples chk objType objId rel user .nil = .ok true := rfl

/-- A union that evaluates to false has all children false. -/
theorem evalUnion_ok_false_all (tuples : List Tuple) (chk : CheckFun)
    (objType objId rel : String) (user : User) (cs : RewriteList)
    (h : evalUnion tuples chk objType objId rel user cs = .ok false) :
    ∀ c ∈ cs.toList, evalRewrite tuples chk objType objId rel user c = .ok false := by
  induction cs with
  | nil => intro c hc; simp [RewriteList.toList] at hc
  | cons c cs ih =>
    intro c' hc'
    rw [evalUnion_cons] at h
    cases hev : evalRewrite tuples chk objType objId rel user c with
    | ok b =>
      cases b with
      | true => rw [hev] at h; exact absurd h (by simp)
      | false =>
        rw [hev] at h
        rcases (by simpa [RewriteList.toList] using hc' : c' = c ∨ c' ∈ cs.toList) with rfl | hmem
        · exact hev
        · exact ih h c' hmem
    | error e => rw [hev] at h; exact absurd h (by simp)

/-- A union that evaluates to true has some child true. -/
theorem evalUnion_ok_true_exists (tuples : List Tuple) (chk : CheckFun)
    (objType objId rel : String) (user : User) (cs : RewriteList)
    (h : evalUnion tuples chk objType objId rel user cs = .ok true) :
    ∃ c ∈ cs.toList, evalRewrite tuples chk objType objId rel user c = .ok true := by
  induction cs with
  | nil => exact absurd h (by simp [evalUnion_nil])
  | cons c cs ih =>
    rw [evalUnion_cons] at h
    cases hev : evalRewrite tuples chk objType objId rel user c with
    | ok b =>
      cases b with
      | true => exact ⟨c, by simp [RewriteList.toList], hev⟩
      | false =>
        rw [hev] at h
        obtain ⟨c', hm, hc'⟩ := ih h
        exact ⟨c', by simp [RewriteList.toList, hm], hc'⟩
    | error e => rw [hev] at h; exact absurd h (by simp)

/-- An intersection that evaluates to true has all children true. -/
theorem evalIntersection_ok_true_all (tuples : List Tuple) (chk : CheckFun)
    (objType objId rel : String) (user : User) (cs : RewriteList)
    (h : evalIntersection tuples chk objType objId rel user cs = .ok true) :
    ∀ c ∈ cs.toList, evalRewrite tuples chk objType objId rel user c = .ok true := by
  induction cs with
  | nil => intro c hc; simp [RewriteList.toList] at hc
  | cons c cs ih =>
    intro c' hc'
    rw [evalIntersection_cons] at h
    cases hev : evalRewrite tuples chk objType objId rel user c with
    | ok b =>
      cases b with
      | false => rw [hev] at h; exact absurd h (by simp)
      | true =>
        rw [hev] at h
        rcases (by simpa [RewriteList.toList] using hc' : c' = c ∨ c' ∈ cs.toList) with rfl | hmem
        · exact hev
        · exact ih h c' hmem
    | error e => rw [hev] at h; exact absurd h (by simp)

/-- An intersection that evaluates to false has some child false. -/
theorem evalIntersection_ok_false_exists (tuples : List Tuple) (chk : CheckFun)
    (objType objId rel : String) (user : User) (cs : RewriteList)
    (h : evalIntersection tuples chk objType objId rel user cs = .ok false) :
    ∃ c ∈ cs.toList, evalRewrite tuples chk objType objId rel user c = .ok false := by
  induction cs with
  | nil => exact absurd h (by simp [evalIntersection_nil])
  | cons c cs ih =>
    rw [evalIntersection_cons] at h
    cases hev : evalRewrite tuples chk objType objId rel user c with
    | ok b =>
      cases b with
      | false => exact ⟨c, by simp [RewriteList.toList], hev⟩
      | true =>
        rw [hev] at h
        obtain ⟨c', hm, hc'⟩ := ih h
        exact ⟨c', by simp [RewriteList.toList, hm], hc'⟩
    | error e => rw [hev] at h; exact absurd h (by simp)

/-- Monotonicity of union evaluation in the children's truth values. -/
theorem evalUnion_mono (tuples tuples' : List Tuple) (chk chk' : CheckFun)
    (objType objId rel : String) (user : User) (cs : RewriteList)
    (h : ∀ c ∈ cs.toList, ∃ b b' : Bool,
      evalRewrite tuples chk objType objId rel user c = .ok b ∧
      evalRewrite tuples' chk' objType objId rel user c = .ok b' ∧ b ≤ b') :
    ∃ b b' : Bool, evalUnion tuples chk objType objId rel user cs = .ok b ∧
      evalUnion tuples' chk' objType objId rel user cs = .ok b' ∧ b ≤ b' := by
  induction cs with
  | nil => exact ⟨false, false, rfl, rfl, le_refl _⟩
  | cons c cs ih =>
    obtain ⟨b1, b1', hc, hc', hle1⟩ := h c (by simp [RewriteList.toList])
    obtain ⟨b2, b2', h2, h2', hle2⟩ :=
      ih (fun c' hm => h c' (by simp [RewriteList.toList, hm]))
    rw [evalUnion_cons tuples chk, evalUnion_cons tuples' chk', hc, hc']
    cases b1 with
    | false =>
      cases b1' with
      | false => exact ⟨b2, b2', h2, h2', hle2⟩
      | true => exact ⟨b2, true, h2, rfl, Bool.le_true b2⟩
    | true =>
      cases b1' with
      | false => exact absurd hle1 (by decide)
      | true => exact ⟨true, true, rfl, rfl, le_refl _⟩

/-- Monotonicity of intersection evaluation in the children's truth
values. -/
theorem evalIntersection_mono (tuples tuples' : List Tuple) (chk chk' : CheckFun)
    (objType objId rel : String) (user : User) (cs : RewriteList)
    (h : ∀ c ∈ cs.toList, ∃ b b' : Bool,
      evalRewrite tuples chk objType objId rel user c = .ok b ∧
      evalRewrite tuples' chk' objType objId rel user c = .ok b' ∧ b ≤ b') :
    ∃ b b' : Bool, evalIntersection tuples chk objType objId rel user cs = .ok b ∧
      evalIntersection tuples' chk' objType objId rel user cs = .ok b' ∧ b ≤ b' := by
  induction cs with
  | nil => exact ⟨true, true, rfl, rfl, le_refl _⟩
  | cons c cs ih =>
    obtain ⟨b1, b1', hc, hc', hle1⟩ := h c (by simp [RewriteList.toList])
    obtain ⟨b2, b2', h2, h2', hle2⟩ :=
      ih (fun c' hm => h c' (by simp [RewriteList.toList, hm]))
    rw [evalIntersection_cons tuples chk, evalIntersection_cons tuples' chk', hc, hc']
    cases b1 with
    | false =>
      cases b1' with
      | false => exact ⟨false, false, rfl, rfl, le_refl _⟩
      | true => exact ⟨false, b2', rfl, h2', Bool.false_le b2'⟩
    | true =>
      cases b1' with
      | false => exact absurd hle1 (by decide)
      | true => exact ⟨b2, b2', h2, h2', hle2⟩

/-- C5: Check is monotone in its children's truth values for the
set-algebra operators: when every child's boolean can only increase,
the boolean of a `Union` and of an `Intersection` can only increase
(never flips true→false for unions, and is monotone non-decreasing for
intersections). -/
theorem union_intersection_monotone (tuples tuples' : List Tuple) (chk chk' : CheckFun)
    (objType objId rel : String) (user : User) (cs : RewriteList)
    (h : ∀ c ∈ cs.toList, ∃ b b' : Bool,
      evalRewrite tuples chk objType objId rel user c = .ok b ∧
      evalRewrite tuples' chk' objType objId rel user c = .ok b' ∧ b ≤ b') :
    (∃ b b' : Bool, evalRewrite tuples chk objType objId rel user (.union cs) = .ok b ∧
      evalRewrite tuples' chk' objType objId rel user (.union cs) = .ok b' ∧ b ≤ b') ∧
    (∃ b b' : Bool, evalRewrite tuples chk objType objId rel user (.intersection cs) = .ok b ∧
      evalRewrite tuples' chk' objType objId rel user (.intersection cs) = .ok b' ∧ b ≤ b') := by
  constructor
  · rw [evalRewrite_union, evalRewrite_union]
    exact evalUnion_mono tuples tuples' chk chk' objType objId rel user cs h
  · rw [evalRewrite_intersection, evalRewrite_intersection]
    exact evalIntersection_mono tuples tuples' chk chk' objType objId rel user cs h

/-- Witness for C5 at a concrete union/intersection. -/
theorem union_intersection_monotone_witness :
    (∃ b b' : Bool, evalRewrite [] (fun _ _ _ _ => .ok false) "t" "o" "r" (.object "u" "x")
        (.union (.cons (.computedUserset "e") .nil)) = .ok b ∧
      evalRewrite [] (fun _ _ _ _ => .ok true) "t" "o" "r" (.object "u" "x")
        (.union (.cons (.computedUserset "e") .nil)) = .ok b' ∧ b ≤ b') ∧
    (∃ b b' : Bool, evalRewrite [] (fun _ _ _ _ => .ok false) "t" "o" "r" (.object "u" "x")
        (.intersection (.cons (.computedUserset "e") .nil)) = .ok b ∧
      evalRewrite [] (fun _ _ _ _ => .ok true) "t" "o" "r" (.object "u" "x")
        (.intersection (.cons (.computedUserset "e") .nil)) = .ok b' ∧ b ≤ b') :=
  union_intersection_monotone [] [] (fun _ _ _ _ => .ok false) (fun _ _ _ _ => .ok true)
    "t" "o" "r" (.object "u" "x") (.cons (.computedUserset "e") .nil)
    (fun c hm => by
      simp [RewriteList.toList] at hm
      subst hm
      exact ⟨false, true, rfl, rfl, by decide⟩)

/-- C7: Check is deterministic — identical calls against the same
(model, tuple-set) snapshot return identical results — and the boolean
decision of a `Union`/`Intersection` is independent of the order of its
sibling branches: evaluating a permutation of the children yields the
same boolean whenever both evaluations return booleans. -/
theorem check_deterministic :
    (∀ (m : AuthorizationModel) (tuples : List Tuple) (depth : Nat)
        (objType objId rel : String) (user : User),
      check m tuples depth objType objId rel user =
        check m tuples depth objType objId rel user) ∧
    (∀ (tuples : List Tuple) (chk : CheckFun) (objType objId rel : String) (user : User)
        (cs cs' : RewriteList) (b b' : Bool),
      cs.toList.Perm cs'.toList →
      evalRewrite tuples chk objType objId rel user (.union cs) = .ok b →
      evalRewrite tuples chk objType objId rel user (.union cs') = .ok b' → b = b') ∧
    (∀ (tuples : List Tuple) (chk : CheckFun) (objType objId rel : String) (user : User)
        (cs cs' : RewriteList) (b b' : Bool),
      cs.toList.Perm cs'.toList →
      evalRewrite tuples chk objType objId rel user (.intersection cs) = .ok b →
      evalRewrite tuples chk objType objId rel user (.intersection cs') = .ok b' → b = b') := by
  refine ⟨fun _ _ _ _ _ _ _ => rfl, ?_, ?_⟩
  · intro tuples chk objType objId rel user cs cs' b b' hperm hb hb'
    rw [evalRewrite_union] at hb hb'
    cases b with
    | true =>
      cases b' with
      | true => rfl
      | false =>
        obtain ⟨c, hm, hc⟩ := evalUnion_ok_true_exists tuples chk _ _ _ _ cs hb
        have hall := evalUnion_ok_false_all tuples chk _ _ _ _ cs' hb' c (hperm.subset hm)
        rw [hc] at hall
        exact absurd hall (by simp)
    | false =>
      cases b' with
      | false => rfl
      | true =>
        obtain ⟨c, hm, hc⟩ := evalUnion_ok_true_exists tuples chk _ _ _ _ cs' hb'
        have hall := evalUnion_ok_false_all tuples chk _ _ _ _ cs hb c (hperm.symm.subset hm)
        rw [hc] at hall
        exact absurd hall (by simp)
  · intro tuples chk objType objId rel user cs cs' b b' hperm hb hb'
    rw [evalRewrite_intersection] at hb hb'
    cases b with
    | false =>
      cases b' with
      | false => rfl
      | true =>
        obtain ⟨c, hm, hc⟩ := evalIntersection_ok_false_exists tuples chk _ _ _ _ cs hb
        have hall := evalIntersection_ok_true_all tuples chk _ _ _ _ cs' hb' c (hperm.subset hm)
        rw [hc] at hall
        exact absurd hall (by simp)
    | true =>
      cases b' with
      | true => rfl
      | false =>
        obtain ⟨c, hm, hc⟩ := evalIntersection_ok_false_exists tuples chk _ _ _ _ cs' hb'
        have hall := evalIntersection_ok_true_all tuples chk _ _ _ _ cs hb c (hperm.symm.subset hm)
        rw [hc] at hall
        exact absurd hall (by simp)

/-- Witness for C7: identical concrete calls agree, and a concrete
permuted union agrees with the original. -/
theorem check_deterministic_witness :
    check docModel [tupAlice] 3 "document" "1" "viewer" (.object "user" "alice") =
      check docModel [tupAlice] 3 "document" "1" "viewer" (.object "user" "alice") ∧
    (false : Bool) = false :=
  ⟨check_deterministic.1 docModel [tupAlice] 3 "document" "1" "viewer" (.object "user" "alice"),
   check_deterministic.2.1 [] (fun _ _ _ _ => .ok false) "t" "o" "r" (.object "u" "x")
     (.cons .this_ (.cons (.computedUserset "e") .nil))
     (.cons (.computedUserset "e") (.cons .this_ .nil))
     false false (List.Perm.swap _ _ _) rfl rfl⟩

/-- C6: on the concrete scenario model (`viewer =
union(this, computed_userset(editor))`, `editor` direct-only) with the
single tuple `document:1#editor@user:alice`, Check grants `viewer` on
`document:1` to alice and denies it to bob. -/
theorem concrete_viewer_scenario :
    check docModel [tupAlice] 25 "document" "1" "viewer" (.object "user" "alice") = .ok true ∧
    check docModel [tupAlice] 25 "document" "1" "viewer" (.object "user" "bob") = .ok false :=
  ⟨rfl, rfl⟩

/-- Distinct relation names for the depth-boundary chain model. -/
def relName (i : Nat) : String := String.mk (List.replicate (i + 1) 'r')

/-- The chain relation names are pairwise distinct. -/
theorem relName_injective (i j : Nat) (h : relName i = relName j) : i = j := by
  have hdata : List.replicate (i + 1) 'r' = List.replicate (j + 1) 'r' :=
    congrArg String.data h
  have hlen := congrArg List.length hdata
  simpa using hlen

/-- The rewrite of the i-th chain relation: relation 0 is direct-only,
relation i+1 is `ComputedUserset` of relation i. -/
def chainRw : Nat → Rewrite
  | 0 => .this_
  | i + 1 => .computedUserset (relName i)

/-- The relation table of the chain model up to relation n. -/
def chainRels : Nat → List (String × Rewrite)
  | 0 => [(relName 0, chainRw 0)]
  | n + 1 => (relName (n + 1), chainRw (n + 1)) :: chainRels n

/-- A model whose relation n requires exactly n levels of
`ComputedUserset` recursion before reaching a direct tuple. -/
def chainModel (n : Nat) : AuthorizationModel := ⟨[⟨"doc", chainRels n⟩]⟩

/-- The single direct tuple grounding the chain at relation 0. -/
def chainTuple : Tuple := ⟨"doc", "1", relName 0, .object "user" "alice"⟩

/-- Looking up a chain relation in the chain relation table. -/
theorem chainRels_lookup (n i : Nat) (h : i ≤ n) :
    (chainRels n).lookup (relName i) = some (chainRw i) := by
  induction n with
  | zero =>
    have : i = 0 := by omega
    subst this
    simp [chainRels, List.lookup]
  | succ n ih =>
    rcases Nat.lt_or_ge i (n + 1) with hlt | hge
    · have hne : (relName i == relName (n + 1)) = false := by
        rw [beq_eq_false_iff_ne]
        intro hEq
        have := relName_injective _ _ hEq
        omega
      simp only [chainRels, List.lookup, hne]
      exact ih (by omega)
    · have : i = n + 1 := by omega
      subst this
      simp [chainRels, List.lookup]

/-- Resolving a chain relation's rewrite through the chain model. -/
theorem chainModel_getRewrite (n i : Nat) (h : i ≤ n) :
    (chainModel n).getRewrite "doc" (relName i) = some (chainRw i) := by
  unfold chainModel AuthorizationModel.getRewrite
  simp only [List.find?]
  rw [show (("doc" : String) == "doc") = true from rfl]
  exact chainRels_lookup n i h

/-- Resolving chain relation i with a depth budget strictly above i
succeeds with true (alice holds relation 0 directly). -/
theorem chain_ok (n : Nat) : ∀ i, i ≤ n → ∀ (d : Nat) (visited : List PathKey), i < d →
    (∀ j, j ≤ i → ("doc", "1", relName j, User.object "user" "alice") ∉ visited) →
    checkRelation (chainModel n) [chainTuple] d visited "doc" "1" (relName i)
      (.object "user" "alice") = .ok true := by
  intro i
  induction i with
  | zero =>
    intro h0 d visited hd hvis
    obtain ⟨e, rfl⟩ : ∃ e, d = e + 1 := ⟨d - 1, by omega⟩
    rw [checkRelation_succ _ _ _ _ _ _ _ _ (hvis 0 (le_refl 0))]
    rw [chainModel_getRewrite n 0 h0]
    rfl
  | succ i ih =>
    intro hsn d visited hd hvis
    obtain ⟨e, rfl⟩ : ∃ e, d = e + 1 := ⟨d - 1, by omega⟩
    rw [checkRelation_succ _ _ _ _ _ _ _ _ (hvis (i + 1) (le_refl _))]
    rw [chainModel_getRewrite n (i + 1) hsn]
    show checkRelation (chainModel n) [chainTuple] e
        (("doc", "1", relName (i + 1), User.object "user" "alice") :: visited)
        "doc" "1" (relName i) (.object "user" "alice") = .ok true
    apply ih (by omega) e _ (by omega)
    intro j hj hmem
    rcases List.mem_cons.mp hmem with hEq | hmem'
    · simp only [Prod.mk.injEq] at hEq
      obtain ⟨-, -, h3, -⟩ := hEq
      have := relName_injective _ _ h3
      omega
    · exact hvis j (by omega) hmem'

/-- Resolving chain relation i with a depth budget of at most i fails
with a depth-exceeded error, not a false. -/
theorem chain_depth_exceeded (n : Nat) : ∀ i, i ≤ n → ∀ (d : Nat) (visited : List PathKey),
    d ≤ i →
    (∀ j, j ≤ i → ("doc", "1", relName j, User.object "user" "alice") ∉ visited) →
    checkRelation (chainModel n) [chainTuple] d visited "doc" "1" (relName i)
      (.object "user" "alice") = .error .depthExceeded := by
  intro i
  induction i with
  | zero =>
    intro h0 d visited hd hvis
    have : d = 0 := by omega
    subst this
    exact checkRelation_zero _ _ _ _ _ _ _ (hvis 0 (le_refl 0))
  | succ i ih =>
    intro hsn d visited hd hvis
    cases d with
    | zero => exact checkRelation_zero _ _ _ _ _ _ _ (hvis (i + 1) (le_refl _))
    | succ e =>
      rw [checkRelation_succ _ _ _ _ _ _ _ _ (hvis (i + 1) (le_refl _))]
      rw [chainModel_getRewrite n (i + 1) hsn]
      show checkRelation (chainModel n) [chainTuple] e
          (("doc", "1", relName (i + 1), User.object "user" "alice") :: visited)
          "doc" "1" (relName i) (.object "user" "alice") = .error .depthExceeded
      apply ih (by omega) e _ (by omega)
      intro j hj hmem
      rcases List.mem_cons.mp hmem with hEq | hmem'
      · simp only [Prod.mk.injEq] at hEq
        obtain ⟨-, -, h3, -⟩ := hEq
        have := relName_injective _ _ h3
        omega
      · exact hvis j (by omega) hmem'

/-- C3: a relation requiring exactly n levels of `ComputedUserset`
recursion succeeds (returns a boolean) when the depth limit is n and
fails with the depth-exceeded error — distinct from a false result —
when the limit is n−1. -/
theorem depth_limit_boundary (n : Nat) (hn : 1 ≤ n) :
    check (chainModel n) [chainTuple] n "doc" "1" (relName n) (.object "user" "alice") =
      .ok true ∧
    check (chainModel n) [chainTuple] (n - 1) "doc" "1" (relName n) (.object "user" "alice") =
      .error .depthExceeded := by
  obtain ⟨k, rfl⟩ : ∃ k, n = k + 1 := ⟨n - 1, by omega⟩
  constructor
  · unfold check
    rw [chainModel_getRewrite (k + 1) (k + 1) (le_refl _)]
    show checkRelation (chainModel (k + 1)) [chainTuple] (k + 1)
        [("doc", "1", relName (k + 1), User.object "user" "alice")]
        "doc" "1" (relName k) (.object "user" "alice") = .ok true
    apply chain_ok (k + 1) k (by omega) (k + 1) _ (by omega)
    intro j hj hmem
    rcases List.mem_singleton.mp hmem with hEq
    simp only [Prod.mk.injEq] at hEq
    obtain ⟨-, -, h3, -⟩ := hEq
    have := relName_injective _ _ h3
    omega
  · simp only [Nat.add_sub_cancel]
    unfold check
    rw [chainModel_getRewrite (k + 1) (k + 1) (le_refl _)]
    show checkRelation (chainModel (k + 1)) [chainTuple] k
        [("doc", "1", relName (k + 1), User.object "user" "alice")]
        "doc" "1" (relName k) (.object "user" "alice") = .error .depthExceeded
    apply chain_depth_exceeded (k + 1) k (by omega) k _ (by omega)
    intro j hj hmem
    rcases List.mem_singleton.mp hmem with hEq
    simp only [Prod.mk.injEq] at hEq
    obtain ⟨-, -, h3, -⟩ := hEq
    have := relName_injective _ _ h3
    omega

/-- Witness for C3 at the chain of length 2. -/
theorem depth_limit_boundary_witness :
    1 ≤ 2 ∧
    (check (chainModel 2) [chainTuple] 2 "doc" "1" (relName 2) (.object "user" "alice") =
        .ok true ∧
      check (chainModel 2) [chainTuple] (2 - 1) "doc" "1" (relName 2)
        (.object "user" "alice") = .error .depthExceeded) :=
  ⟨by decide, depth_limit_boundary 2 (by decide)⟩

/-- Modelled from the spec: the persisted tuple store of one store
(tenant), as seen by the Check resolver. -/
structure StoreState where
  tuples : List Tuple

/-- Modelled from the spec: Check at the serving boundary.  The
caller-supplied contextual tuples are merged with the persisted store's
tuples as additional facts for this call only; the persisted state is
returned unchanged (the read path never mutates the store). -/
def checkAPI (m : AuthorizationModel) (s : StoreState) (contextual : List Tuple)
    (depth : Nat) (objType objId rel : String) (user : User) :
    Except CheckError Bool × StoreState :=
  (check m (contextual ++ s.tuples) depth objType objId rel user, s)

/-- C8: contextual tuples are scoped to a single call: they act as
additional facts for that call only, the persisted store is unchanged,
and a subsequent call that omits them returns the same result as if the
first call had never happened.  Concretely, a contextual tuple granting
bob `editor` flips bob's `viewer` check to true for that call only. -/
theorem contextual_tuples_scoped :
    (∀ (m : AuthorizationModel) (s : StoreState) (contextual : List Tuple)
        (depth : Nat) (objType objId rel : String) (user : User),
      (checkAPI m s contextual depth objType objId rel user).2 = s ∧
      (checkAPI m s contextual depth objType objId rel user).1 =
        check m (contextual ++ s.tuples) depth objType objId rel user) ∧
    (∀ (m : AuthorizationModel) (s : StoreState) (contextual : List Tuple)
        (depth : Nat) (objType objId rel : String) (user : User)
        (depth' : Nat) (objType' objId' rel' : String) (user' : User),
      checkAPI m (checkAPI m s contextual depth objType objId rel user).2
          [] depth' objType' objId' rel' user' =
        checkAPI m s [] depth' objType' objId' rel' user') ∧
    ((checkAPI docModel ⟨[tupAlice]⟩ [⟨"document", "1", "editor", .object "user" "bob"⟩]
        25 "document" "1" "viewer" (.object "user" "bob")).1 = .ok true ∧
      (checkAPI docModel
          (checkAPI docModel ⟨[tupAlice]⟩ [⟨"document", "1", "editor", .object "user" "bob"⟩]
            25 "document" "1" "viewer" (.object "user" "bob")).2
          [] 25 "document" "1" "viewer" (.object "user" "bob")).1 = .ok false) :=
  ⟨fun _ _ _ _ _ _ _ _ => ⟨rfl, rfl⟩, fun _ _ _ _ _ _ _ _ _ _ _ _ _ => rfl, rfl, rfl⟩

mutual
/-- Modelled from the spec: the relation names a rewrite references on
the object's own type via `ComputedUserset` (re-evaluated on the same
object, hence resolved on the same type). -/
def Rewrite.sameTypeRefs : Rewrite → List String
  | .this_ => []
  | .computedUserset r => [r]
  | .tupleToUserset _ _ => []
  | .union cs => RewriteList.sameTypeRefs cs
  | .intersection cs => RewriteList.sameTypeRefs cs
  | .difference a b => a.sameTypeRefs ++ b.sameTypeRefs

/-- Same-type references of a children list. -/
def RewriteList.sameTypeRefs : RewriteList → List String
  | .nil => []
  | .cons c cs => c.sameTypeRefs ++ RewriteList.sameTypeRefs cs
end

mutual
/-- Modelled from the spec: the relation names a rewrite references on
other objects' types, via the computed relation of a `TupleToUserset`
(which must resolve to a relation that exists in the model). -/
def Rewrite.crossTypeRefs : Rewrite → List String
  | .this_ => []
  | .computedUserset _ => []
  | .tupleToUserset _ cr => [cr]
  | .union cs => RewriteList.crossTypeRefs cs
  | .intersection cs => RewriteList.crossTypeRefs cs
  | .difference a b => a.crossTypeRefs ++ b.crossTypeRefs

/-- Cross-type references of a children list. -/
def RewriteList.crossTypeRefs : RewriteList → List String
  | .nil => []
  | .cons c cs => c.crossTypeRefs ++ RewriteList.crossTypeRefs cs
end

mutual
/-- Modelled from the spec: the tupleset relations of a rewrite's
`TupleToUserset` nodes, each of which must exist on the object's own
type. -/
def Rewrite.tuplesetRefs : Rewrite → List String
  | .this_ => []
  | .computedUserset _ => []
  | .tupleToUserset tr _ => [tr]
  | .union cs => RewriteList.tuplesetRefs cs
  | .intersection cs => RewriteList.tuplesetRefs cs
  | .difference a b => a.tuplesetRefs ++ b.tuplesetRefs

/-- Tupleset relations of a children list. -/
def RewriteList.tuplesetRefs : RewriteList → List String
  | .nil => []
  | .cons c cs => c.tuplesetRefs ++ RewriteList.tuplesetRefs cs
end

/-- The relation names defined on a type. -/
def TypeDefinition.relationNames (td : TypeDefinition) : List String :=
  td.relations.map Prod.fst

/-- All relation names defined anywhere in a model. -/
def AuthorizationModel.allRelationNames (m : AuthorizationModel) : List String :=
  (m.typeDefinitions.map TypeDefinition.relationNames).flatten

/-- The total number of (type, relation) pairs of a model. -/
def relationCount (m : AuthorizationModel) : Nat :=
  (m.typeDefinitions.map (fun td => td.relations.length)).sum

/-- Modelled from the spec: the load-time validation errors, each
identifying the offending type/relation. -/
inductive ValidationError where
  | tooManyRelations (count limit : Nat)
  | unresolvedReference (typeName relationName referenced : String)
  | missingTuplesetRelation (typeName relationName tuplesetRel : String)
deriving DecidableEq

/-- Modelled from the spec: validate one relation's rewrite — every
same-type reference and tupleset relation must exist on the object's own
type, and every cross-type reference must exist in the model. -/
def validateRelation (m : AuthorizationModel) (td : TypeDefinition)
    (rname : String) (rw : Rewrite) : Option ValidationError :=
  match rw.sameTypeRefs.find? (fun r => !(td.relationNames.contains r)) with
  | some bad => some (.unresolvedReference td.name rname bad)
  | none =>
    match rw.crossTypeRefs.find? (fun r => !(m.allRelationNames.contains r)) with
    | some bad => some (.unresolvedReference td.name rname bad)
    | none =>
      match rw.tuplesetRefs.find? (fun r => !(td.relationNames.contains r)) with
      | some bad => some (.missingTuplesetRelation td.name rname bad)
      | none => none

/-- Modelled from the spec: validate all relations of one type
definition, reporting the first failure. -/
def validateTypeDef (m : AuthorizationModel) (td : TypeDefinition) :
    Option ValidationError :=
  td.relations.findSome? (fun p => validateRelation m td p.1 p.2)

/-- Modelled from the spec: the first validation failure of a model —
the relation-count ceiling, then referential integrity of every
rewrite. -/
def findModelError (limit : Nat) (m : AuthorizationModel) : Option ValidationError :=
  if limit < relationCount m then some (.tooManyRelations (relationCount m) limit)
  else m.typeDefinitions.findSome? (validateTypeDef m)

/-- Modelled from the spec: `Load(rawModel) → CompiledModel |
ValidationError` — the whole model on success, a descriptive error on
any failed check, never a partial load. -/
def Load (limit : Nat) (m : AuthorizationModel) :
    Except ValidationError AuthorizationModel :=
  match findModelError limit m with
  | some e => .error e
  | none => .ok m

/-- The spec's model invariants, as a proposition: the relation-count
ceiling holds and every reference of every rewrite resolves. -/
def ValidModel (limit : Nat) (m : AuthorizationModel) : Prop :=
  relationCount m ≤ limit ∧
  ∀ td ∈ m.typeDefinitions, ∀ p ∈ td.relations,
    (∀ r ∈ (Prod.snd p).sameTypeRefs, r ∈ td.relationNames) ∧
    (∀ r ∈ (Prod.snd p).crossTypeRefs, r ∈ m.allRelationNames) ∧
    (∀ r ∈ (Prod.snd p).tuplesetRefs, r ∈ td.relationNames)

/-- Model validity is decidable (it is a bounded quantification over
the model's finite structure). -/
instance validModelDecidable (limit : Nat) (m : AuthorizationModel) :
    Decidable (ValidModel limit m) := by
  unfold ValidModel
  exact inferInstance

/-- A key present among an association list's keys can be looked up. -/
theorem lookup_of_mem_keys {β : Type} (l : List (String × β)) (a : String)
    (h : a ∈ l.map Prod.fst) : ∃ b, l.lookup a = some b := by
  induction l with
  | nil => simp at h
  | cons p l ih =>
    obtain ⟨k, v⟩ := p
    by_cases hk : a = k
    · subst hk
      exact ⟨v, by simp [List.lookup]⟩
    · have hm : a ∈ l.map Prod.fst := by
        rcases (by simpa using h : a = k ∨ a ∈ l.map Prod.fst) with h1 | h2
        · exact absurd h1 hk
        · exact h2
      obtain ⟨b, hb⟩ := ih hm
      refine ⟨b, ?_⟩
      simp only [List.lookup, beq_eq_false_iff_ne.mpr hk]
      exact hb

/-- Finding no failure in a relation's rewrite is exactly reference
resolution for that rewrite. -/
theorem validateRelation_eq_none_iff (m : AuthorizationModel) (td : TypeDefinition)
    (rname : String) (rw : Rewrite) :
    validateRelation m td rname rw = none ↔
      ((∀ r ∈ rw.sameTypeRefs, r ∈ td.relationNames) ∧
       (∀ r ∈ rw.crossTypeRefs, r ∈ m.allRelationNames) ∧
       (∀ r ∈ rw.tuplesetRefs, r ∈ td.relationNames)) := by
  unfold validateRelation
  cases h1 : rw.sameTypeRefs.find? (fun r => !(td.relationNames.contains r)) with
  | some bad =>
    simp only [reduceCtorEq, false_iff]
    intro hall
    have hbad := List.find?_some h1
    have hmem := List.mem_of_find?_eq_some h1
    have := hall.1 bad hmem
    simp [List.contains, List.elem_iff, this] at hbad
  | none =>
    cases h2 : rw.crossTypeRefs.find? (fun r => !(m.allRelationNames.contains r)) with
    | some bad =>
      simp only [reduceCtorEq, false_iff]
      intro hall
      have hbad := List.find?_some h2
      have hmem := List.mem_of_find?_eq_some h2
      have := hall.2.1 bad hmem
      simp [List.contains, List.elem_iff, this] at hbad
    | none =>
      cases h3 : rw.tuplesetRefs.find? (fun r => !(td.relationNames.contains r)) with
      | some bad =>
        simp only [reduceCtorEq, false_iff]
        intro hall
        have hbad := List.find?_some h3
        have hmem := List.mem_of_find?_eq_some h3
        have := hall.2.2 bad hmem
        simp [List.contains, List.elem_iff, this] at hbad
      | none =>
        simp only [true_iff]
        refine ⟨?_, ?_, ?_⟩
        · intro r hr
          have := List.find?_eq_none.mp h1 r hr
          simpa [List.contains, List.elem_iff] using this
        · intro r hr
          have := List.find?_eq_none.mp h2 r hr
          simpa [List.contains, List.elem_iff] using this
        · intro r hr
          have := List.find?_eq_none.mp h3 r hr
          simpa [List.contains, List.elem_iff] using this

/-- Finding no model error is exactly model validity. -/
theorem findModelError_eq_none_iff (limit : Nat) (m : AuthorizationModel) :
    findModelError limit m = none ↔ ValidModel limit m := by
  unfold findModelError ValidModel
  by_cases hc : limit < relationCount m
  · simp only [if_pos hc, reduceCtorEq, false_iff, not_and]
    intro hle
    omega
  · simp only [if_neg hc]
    rw [List.findSome?_eq_none_iff]
    constructor
    · intro h
      refine ⟨by omega, ?_⟩
      intro td htd p hp
      have hnone := h td htd
      unfold validateTypeDef at hnone
      have := List.findSome?_eq_none_iff.mp hnone p hp
      exact (validateRelation_eq_none_iff m td p.1 p.2).mp this
    · intro ⟨_, h⟩ td htd
      unfold validateTypeDef
      rw [List.findSome?_eq_none_iff]
      intro p hp
      exact (validateRelation_eq_none_iff m td p.1 p.2).mpr (h td htd p hp)

/-- C9: `Load` is total and atomic — it returns either the whole
compiled model or a validation error, never a partial load; success is
exactly the conjunction of the relation-count ceiling, resolution of
every relation reference, and existence of every tupleset relation on
the object's own type; each failure identifies the offending
type/relation; and references validated at load time resolve by lookup
at resolution time, so an unresolved reference is never a
resolution-time error. -/
theorem load_contract :
    (∀ (limit : Nat) (m : AuthorizationModel),
      Load limit m = .ok m ∨ ∃ e, Load limit m = .error e) ∧
    (∀ (limit : Nat) (m m' : AuthorizationModel),
      Load limit m = .ok m' → m' = m ∧ ValidModel limit m) ∧
    (∀ (limit : Nat) (m : AuthorizationModel),
      ValidModel limit m → Load limit m = .ok m) ∧
    (∀ (limit : Nat) (m : AuthorizationModel) (c l : Nat),
      Load limit m = .error (.tooManyRelations c l) →
      c = relationCount m ∧ l = limit ∧ limit < relationCount m) ∧
    (∀ (limit : Nat) (m : AuthorizationModel) (t r bad : String),
      Load limit m = .error (.unresolvedReference t r bad) →
      ∃ td ∈ m.typeDefinitions, td.name = t ∧ ∃ rw, (r, rw) ∈ td.relations ∧
        ((bad ∈ rw.sameTypeRefs ∧ bad ∉ td.relationNames) ∨
         (bad ∈ rw.crossTypeRefs ∧ bad ∉ m.allRelationNames))) ∧
    (∀ (limit : Nat) (m : AuthorizationModel) (t r bad : String),
      Load limit m = .error (.missingTuplesetRelation t r bad) →
      ∃ td ∈ m.typeDefinitions, td.name = t ∧ ∃ rw, (r, rw) ∈ td.relations ∧
        bad ∈ rw.tuplesetRefs ∧ bad ∉ td.relationNames) ∧
    (∀ (limit : Nat) (m : AuthorizationModel), ValidModel limit m →
      ∀ td ∈ m.typeDefinitions, ∀ p ∈ td.relations,
        ∀ r ∈ (Prod.snd p).sameTypeRefs, ∃ rw, td.relations.lookup r = some rw) := by
  have herr : ∀ (limit : Nat) (m : AuthorizationModel) (e : ValidationError),
      Load limit m = .error e → findModelError limit m = some e := by
    intro limit m e h
    unfold Load at h
    cases hf : findModelError limit m with
    | some e' => rw [hf] at h; cases h; rfl
    | none => rw [hf] at h; exact absurd h (by simp)
  have hsome : ∀ (limit : Nat) (m : AuthorizationModel) (e : ValidationError),
      findModelError limit m = some e →
      (e = .tooManyRelations (relationCount m) limit ∧ limit < relationCount m) ∨
      (∃ td ∈ m.typeDefinitions, ∃ p ∈ td.relations,
        validateRelation m td p.1 p.2 = some e) := by
    intro limit m e h
    unfold findModelError at h
    by_cases hc : limit < relationCount m
    · rw [if_pos hc] at h
      cases h
      exact .inl ⟨rfl, hc⟩
    · rw [if_neg hc] at h
      obtain ⟨td, htd, hv⟩ := List.exists_of_findSome?_eq_some h
      unfold validateTypeDef at hv
      obtain ⟨p, hp, hr⟩ := List.exists_of_findSome?_eq_some hv
      exact .inr ⟨td, htd, p, hp, hr⟩
  refine ⟨?_, ?_, ?_, ?_, ?_, ?_, ?_⟩
  · intro limit m
    unfold Load
    cases h : findModelError limit m with
    | some e => exact .inr ⟨e, rfl⟩
    | none => exact .inl rfl
  · intro limit m m' h
    unfold Load at h
    cases hf : findModelError limit m with
    | some e => rw [hf] at h; exact absurd h (by simp)
    | none =>
      rw [hf] at h
      cases h
      exact ⟨rfl, (findModelError_eq_none_iff limit m).mp hf⟩
  · intro limit m hv
    unfold Load
    rw [(findModelError_eq_none_iff limit m).mpr hv]
  · intro limit m c l h
    rcases hsome limit m _ (herr limit m _ h) with ⟨hEq, hc⟩ | ⟨td, _, p, _, hr⟩
    · injection hEq with h1 h2
      exact ⟨h1, h2, hc⟩
    · unfold validateRelation at hr
      cases h1 : (Prod.snd p).sameTypeRefs.find? (fun r => !(td.relationNames.contains r)) with
      | some bad => rw [h1] at hr; exact absurd hr (by simp)
      | none =>
        rw [h1] at hr
        cases h2 : (Prod.snd p).crossTypeRefs.find?
            (fun r => !(m.allRelationNames.contains r)) with
        | some bad => rw [h2] at hr; exact absurd hr (by simp)
        | none =>
          rw [h2] at hr
          cases h3 : (Prod.snd p).tuplesetRefs.find?
              (fun r => !(td.relationNames.contains r)) with
          | some bad => rw [h3] at hr; exact absurd hr (by simp)
          | none => rw [h3] at hr; exact absurd hr (by simp)
  · intro limit m t r bad h
    rcases hsome limit m _ (herr limit m _ h) with ⟨hEq, _⟩ | ⟨td, htd, p, hp, hr⟩
    · exact absurd hEq (by simp)
    · unfold validateRelation at hr
      cases h1 : (Prod.snd p).sameTypeRefs.find? (fun x => !(td.relationNames.contains x)) with
      | some bad' =>
        rw [h1] at hr
        injection hr with hr'
        injection hr' with e1 e2 e3
        subst e1; subst e2; subst e3
        refine ⟨td, htd, rfl, Prod.snd p, by simpa using hp, .inl ⟨?_, ?_⟩⟩
        · exact List.mem_of_find?_eq_some h1
        · have := List.find?_some h1
          simpa [List.contains, List.elem_iff] using this
      | none =>
        rw [h1] at hr
        cases h2 : (Prod.snd p).crossTypeRefs.find?
            (fun x => !(m.allRelationNames.contains x)) with
        | some bad' =>
          rw [h2] at hr
          injection hr with hr'
          injection hr' with e1 e2 e3
          subst e1; subst e2; subst e3
          refine ⟨td, htd, rfl, Prod.snd p, by simpa using hp, .inr ⟨?_, ?_⟩⟩
          · exact List.mem_of_find?_eq_some h2
          · have := List.find?_some h2
            simpa [List.contains, List.elem_iff] using this
        | none =>
          rw [h2] at hr
          cases h3 : (Prod.snd p).tuplesetRefs.find?
              (fun x => !(td.relationNames.contains x)) with
          | some bad' => rw [h3] at hr; exact absurd hr (by simp)
          | none => rw [h3] at hr; exact absurd hr (by simp)
  · intro limit m t r bad h
    rcases hsome limit m _ (herr limit m _ h) with ⟨hEq, _⟩ | ⟨td, htd, p, hp, hr⟩
    · exact absurd hEq (by simp)
    · unfold validateRelation at hr
      cases h1 : (Prod.snd p).sameTypeRefs.find? (fun x => !(td.relationNames.contains x)) with
      | some bad' => rw [h1] at hr; exact absurd hr (by simp)
      | none =>
        rw [h1] at hr
        cases h2 : (Prod.snd p).crossTypeRefs.find?
            (fun x => !(m.allRelationNames.contains x)) with
        | some bad' => rw [h2] at hr; exact absurd hr (by simp)
        | none =>
          rw [h2] at hr
          cases h3 : (Prod.snd p).tuplesetRefs.find?
              (fun x => !(td.relationNames.contains x)) with
          | some bad' =>
            rw [h3] at hr
            injection hr with hr'
            injection hr' with e1 e2 e3
            subst e1; subst e2; subst e3
            refine ⟨td, htd, rfl, Prod.snd p, by simpa using hp, ?_, ?_⟩
            · exact List.mem_of_find?_eq_some h3
            · have := List.find?_some h3
              simpa [List.contains, List.elem_iff] using this
          | none => rw [h3] at hr; exact absurd hr (by simp)
  · intro limit m hv td htd p hp r hr
    have := ((hv.2 td htd p hp).1 r hr)
    exact lookup_of_mem_keys td.relations r this

/-- Witness for C9: the concrete scenario model validates and loads
whole. -/
theorem load_contract_witness :
    ValidModel 10 docModel ∧ Load 10 docModel = .ok docModel :=
  ⟨by decide, load_contract.2.2.1 10 docModel (by decide)⟩

/-- From `cmd/openfga/openfga.go` line 24: the `DatastoreEngine` struct
tag default. -/
def defaultDatastoreEngine : String := "memory"

/-- From `cmd/openfga/openfga.go` lines 47-50: envconfig yields the
configured value when the environment variable is set and the struct-tag
default otherwise. -/
def datastoreEngine (env : Option String) : String :=
  env.getD defaultDatastoreEngine

/-- Outcome of the datastore-selection switch in `main`: either control
reaches `server.New` with the chosen engine's datastore, or the process
dies with `logger.Fatal` before the server is constructed. -/
inductive StartupOutcome where
  | proceedsToServer (engine : String)
  | fatalBeforeServer (message : String)
deriving DecidableEq

/-- From `cmd/openfga/openfga.go` lines 56-72: the switch on
`config.DatastoreEngine`.  `"memory"` constructs the memory datastore,
`"postgres"` constructs the postgres datastore (`postgresOk` abstracts
whether `postgres.NewPostgresDatastore` succeeds for the configured
URI; on failure `main` calls `logger.Fatal`), and every other value hits
the `default` branch, which calls `logger.Fatal` with an "unsupported"
message. -/
def selectDatastore (engine : String) (postgresOk : Bool) : StartupOutcome :=
  if engine = "memory" then .proceedsToServer engine
  else if engine = "postgres" then
    if postgresOk then .proceedsToServer engine
    else .fatalBeforeServer "failed to initialize postgres datastore"
  else .fatalBeforeServer ("storage engine '" ++ engine ++ "' is unsupported")

/-- From `main`: configuration processing followed by the datastore
switch, both of which run before `server.New` is ever called. -/
def mainStartup (envEngine : Option String) (postgresOk : Bool) : StartupOutcome :=
  selectDatastore (datastoreEngine envEngine) postgresOk

/-- C10: the datastore engine is selected solely by the
`DatastoreEngine` configuration value, which defaults to "memory";
"memory" and "postgres" construct the corresponding datastore, every
other value terminates the process with a fatal error before the server
is constructed, and consequently the server never starts with an
unsupported storage engine. -/
theorem datastore_engine_selection :
    datastoreEngine none = "memory" ∧
    (∀ pOk : Bool, selectDatastore "memory" pOk = .proceedsToServer "memory") ∧
    selectDatastore "postgres" true = .proceedsToServer "postgres" ∧
    (∀ (engine : String) (pOk : Bool), engine ≠ "memory" → engine ≠ "postgres" →
      selectDatastore engine pOk =
        .fatalBeforeServer ("storage engine '" ++ engine ++ "' is unsupported")) ∧
    (∀ (envEngine : Option String) (pOk : Bool) (engine : String),
      mainStartup envEngine pOk = .proceedsToServer engine →
      engine = "memory" ∨ engine = "postgres") := by
  refine ⟨rfl, fun _ => rfl, rfl, ?_, ?_⟩
  · intro engine pOk h1 h2
    simp [selectDatastore, h1, h2]
  · intro envEngine pOk engine h
    unfold mainStartup selectDatastore at h
    by_cases h1 : datastoreEngine envEngine = "memory"
    · rw [if_pos h1] at h
      cases h
      exact .inl h1
    · rw [if_neg h1] at h
      by_cases h2 : datastoreEngine envEngine = "postgres"
      · rw [if_pos h2] at h
        cases pOk with
        | true => cases h; exact .inr h2
        | false => exact absurd h (by simp)
      · rw [if_neg h2] at h
        exact absurd h (by simp)

/-- Witness for C10 at concrete engine values. -/
theorem datastore_engine_selection_witness :
    ("mysql" : String) ≠ "memory" ∧ ("mysql" : String) ≠ "postgres" ∧
    selectDatastore "mysql" true =
      .fatalBeforeServer ("storage engine '" ++ "mysql" ++ "' is unsupported") ∧
    ("memory" = "memory" ∨ ("memory" : String) = "postgres") :=
  ⟨by decide, by decide,
   datastore_engine_selection.2.2.2.1 "mysql" true (by decide) (by decide),
   datastore_engine_selection.2.2.2.2 none true "memory" rfl⟩

end OpenFGA
